import Mathlib

/-!
# Verification of the EYYE Telegram web-app client

A shallow embedding, in Lean 4, of the client-side code of the
`eyye-tg-bot` repository (files `webapp/telemetry.js` and `webapp/app.js`,
first / current drafts), together with theorems settling the frozen claims
about that code.

Modelling conventions:
* JavaScript numbers that the code only ever produces or compares as
  integral values (millisecond counts, card identifiers, offsets) are
  modelled as `Int` or `Nat`; `Math.round` on an already-integral value is
  the identity and is dropped.
* `null`/`undefined` fields are modelled with `Option`.
* JavaScript truthiness of the values that actually occur is modelled
  explicitly (`0`, `""`, `null` are falsy).
* Timer scheduling (`setTimeout`/`setInterval`) and the DOM are not
  modelled; the functions driven by them are modelled as explicit state
  transitions on the module-level variables they read and write.
* Network calls are modelled by a boolean oracle (`netOk`); a rejected
  `fetch` is an `Except.error` which the code's `try`/`catch` turns into a
  normal result.
-/

namespace Eyye

/-! ## webapp/telemetry.js — constants -/

/-- `const MAX_BATCH_SIZE = 50` (telemetry.js line 9). -/
def MAX_BATCH_SIZE : Nat := 50

/-- `const MAX_DWELL_MS = 120000` (telemetry.js line 18). -/
def MAX_DWELL_MS : Int := 120000

/-- `const VIEW_SEND_STEP_MS = 1200` (telemetry.js line 15). -/
def VIEW_SEND_STEP_MS : Int := 1200

/-- `const API_PATH = "/api/events"` (telemetry.js line 5). -/
def API_PATH : String := "/api/events"

/-! ## Telemetry event records and the pending queue

The queue holds the raw values passed to `enqueue`; all internal callers
pass objects shaped like the one built by `baseEvent`, but `enqueue` itself
accepts anything (including `null`, hence `Option TEvent` as the element
type; the `event &&` truthiness guard in the coalescing branch corresponds
to the `Option` match).  `card_id` is `some n` exactly when the JavaScript
field is a finite number (`Number.isFinite`).  The `extra` payload is an
opaque object; we model it by an uninterpreted `String` token. -/

structure TEvent where
  type : String
  card_id : Option Int
  ts : Option String
  dwell_ms : Option Int
  position : Option Int
  source : Option String
  extra : Option String
  deriving Repr, DecidableEq, Inhabited

/-- JavaScript truthiness of `TG_ID` (a number or `null`):
`!TG_ID` is true for `null`, `0` and `NaN`; `NaN` cannot be stored by
`setTgIdInternal` (it checks `Number.isFinite`), so `Option Int` suffices. -/
def tgTruthy : Option Int → Bool
  | none => false
  | some n => n != 0

/-- JavaScript truthiness of an optional string field (`null` and `""` are
falsy). -/
def strTruthy : Option String → Bool
  | none => false
  | some s => s != ""

/-- The guard of the coalescing loop in `enqueue` (telemetry.js line 100):
`ev && ev.type === "view" && ev.card_id === cid`. -/
def isViewFor (cid : Int) : Option TEvent → Bool
  | some ev => ev.type == "view" && ev.card_id == some cid
  | none => false

/-- The in-place update performed on a matched queue entry by `enqueue`
(telemetry.js lines 102–108): keep the larger `dwell_ms`
(`Number(x || 0)` reads `null` as `0`), and overwrite `ts` / `position` /
`source` / `extra` when the incoming event carries them. -/
def mergeView (old incoming : TEvent) : TEvent :=
  let prev := old.dwell_ms.getD 0
  let cur := incoming.dwell_ms.getD 0
  { old with
    dwell_ms := if prev < cur then some cur else old.dwell_ms
    ts := if strTruthy incoming.ts then incoming.ts else old.ts
    position := if incoming.position ≠ none then incoming.position else old.position
    source := if strTruthy incoming.source then incoming.source else old.source
    extra := if incoming.extra ≠ none then incoming.extra else old.extra }

/-- The backwards search of `enqueue` (telemetry.js lines 98–112): find the
entry nearest to the END of the queue satisfying `isViewFor cid`, replace
it by the merged record, and report `none` when no entry matches. -/
def updLast (incoming : TEvent) (cid : Int) :
    List (Option TEvent) → Option (List (Option TEvent))
  | [] => none
  | x :: xs =>
    match updLast incoming cid xs with
    | some xs2 => some (x :: xs2)
    | none =>
      match x with
      | some ev =>
        if ev.type == "view" && ev.card_id == some cid then
          some (some (mergeView ev incoming) :: xs)
        else none
      | none => none

/-- The memory bound at the top of `enqueue` (telemetry.js lines 90–92):
`if (queue.length > 3 * MAX_BATCH_SIZE) queue.splice(0, queue.length - 3 * MAX_BATCH_SIZE)`,
i.e. drop the oldest entries, keeping the last `3 * MAX_BATCH_SIZE`. -/
def trimQueue (q : List (Option TEvent)) : List (Option TEvent) :=
  if 3 * MAX_BATCH_SIZE < q.length then q.drop (q.length - 3 * MAX_BATCH_SIZE) else q

/-- `enqueue` (telemetry.js lines 86–117).  `scheduleFlush` only arms a
timer and is not part of the queue state. -/
def enqueue (tg : Option Int) (event : Option TEvent) (q : List (Option TEvent)) :
    List (Option TEvent) :=
  if ¬ tgTruthy tg then q
  else
    let q1 := trimQueue q
    match event with
    | some ev =>
      if ev.type == "view" && ev.card_id.isSome then
        match ev.card_id with
        | some cid =>
          match updLast ev cid q1 with
          | some q2 => q2
          | none => q1 ++ [event]
        | none => q1 ++ [event]
      else q1 ++ [event]
    | none => q1 ++ [event]

/-! ## flush -/

/-- The body of the `POST /api/events` request built by `flush`
(telemetry.js lines 133–136), together with the URL it is sent to. -/
structure EventsPayload where
  url : String
  tg_id : Int
  events : List (Option TEvent)
  deriving Repr, DecidableEq

/-- The `fetch` call, reduced to its one observable outcome: it either
resolves or rejects (network failure). -/
def fetchPost (netOk : Bool) : Except String Unit :=
  if netOk then Except.ok () else Except.error "network"

/-- `flush` (telemetry.js lines 124–150).  Returns the new queue and the
request that was issued (if any); the `try`/`catch` around `fetch` is the
`match` on `fetchPost`, and on failure the batch is put back with
`queue.unshift(...batch.slice(-MAX_BATCH_SIZE))`.  The result is wrapped
in `Except` to record whether an exception escapes `flush`. -/
def flush (tg : Option Int) (netOk : Bool) (q : List (Option TEvent)) :
    Except String (List (Option TEvent) × Option EventsPayload) :=
  match tg with
  | none => Except.ok (q, none)
  | some n =>
    if q.length = 0 ∨ n = 0 then Except.ok (q, none)
    else
      let batch := q.take MAX_BATCH_SIZE
      let rest := q.drop MAX_BATCH_SIZE
      let payload : EventsPayload := ⟨API_PATH, n, batch⟩
      match fetchPost netOk with
      | Except.ok _ => Except.ok (rest, some payload)
      | Except.error _ =>
        Except.ok (batch.drop (batch.length - MAX_BATCH_SIZE) ++ rest, some payload)

/-! ## Queue lemmas -/

theorem mergeView_type (old inc : TEvent) : (mergeView old inc).type = old.type := rfl

theorem mergeView_card_id (old inc : TEvent) :
    (mergeView old inc).card_id = old.card_id := rfl

theorem isViewFor_mergeView (c : Int) (old inc : TEvent) :
    isViewFor c (some (mergeView old inc)) = isViewFor c (some old) := by
  simp [isViewFor, mergeView_type, mergeView_card_id]

theorem mergeView_dwell (old inc : TEvent) :
    (mergeView old inc).dwell_ms.getD 0
      = max (old.dwell_ms.getD 0) (inc.dwell_ms.getD 0) := by
  unfold mergeView
  by_cases h : old.dwell_ms.getD 0 < inc.dwell_ms.getD 0 <;> simp [h] <;> omega

theorem updLast_nil (inc : TEvent) (cid : Int) : updLast inc cid [] = none := rfl

theorem updLast_cons (inc : TEvent) (cid : Int) (x : Option TEvent)
    (xs : List (Option TEvent)) :
    updLast inc cid (x :: xs) =
      match updLast inc cid xs with
      | some xs2 => some (x :: xs2)
      | none =>
        match x with
        | some ev =>
          if ev.type == "view" && ev.card_id == some cid then
            some (some (mergeView ev inc) :: xs)
          else none
        | none => none := rfl

theorem updLast_length {inc : TEvent} {cid : Int} :
    ∀ {q q2 : List (Option TEvent)}, updLast inc cid q = some q2 → q2.length = q.length := by
  intro q
  induction q with
  | nil => intro q2 h; rw [updLast_nil] at h; cases h
  | cons x xs ih =>
    intro q2 h
    rw [updLast_cons] at h
    cases hxs : updLast inc cid xs with
    | some xs2 =>
      rw [hxs] at h
      cases h
      simp [ih hxs]
    | none =>
      rw [hxs] at h
      cases x with
      | none => simp at h
      | some ev =>
        simp only at h
        by_cases hc : (ev.type == "view" && ev.card_id == some cid) = true
        · rw [if_pos hc] at h
          cases h
          simp
        · rw [if_neg hc] at h
          cases h

theorem updLast_none_iff {inc : TEvent} {cid : Int} :
    ∀ {q : List (Option TEvent)},
      updLast inc cid q = none ↔ q.countP (isViewFor cid) = 0 := by
  intro q
  induction q with
  | nil => simp [updLast_nil]
  | cons x xs ih =>
    rw [updLast_cons]
    cases hxs : updLast inc cid xs with
    | some xs2 =>
      have : xs.countP (isViewFor cid) ≠ 0 := by
        intro h0
        rw [← ih] at h0
        rw [h0] at hxs
        cases hxs
      simp only [List.countP_cons]
      constructor
      · intro h; cases h
      · intro h; omega
    | none =>
      have hxs0 : xs.countP (isViewFor cid) = 0 := ih.mp hxs
      cases x with
      | none => simp [List.countP_cons, isViewFor, hxs0]
      | some ev =>
        by_cases hc : (ev.type == "view" && ev.card_id == some cid) = true
        · simp [hc, List.countP_cons, isViewFor, hxs0]
        · simp [hc, List.countP_cons, isViewFor, hxs0]

theorem updLast_some_spec {inc : TEvent} {cid : Int} :
    ∀ {q q2 : List (Option TEvent)}, updLast inc cid q = some q2 →
      ∃ l old r, q = l ++ some old :: r ∧ isViewFor cid (some old) = true ∧
        q2 = l ++ some (mergeView old inc) :: r ∧ r.countP (isViewFor cid) = 0 := by
  intro q
  induction q with
  | nil => intro q2 h; rw [updLast_nil] at h; cases h
  | cons x xs ih =>
    intro q2 h
    rw [updLast_cons] at h
    cases hxs : updLast inc cid xs with
    | some xs2 =>
      rw [hxs] at h
      cases h
      obtain ⟨l, old, r, hq, hm, hq2, hr⟩ := ih hxs
      exact ⟨x :: l, old, r, by simp [hq], hm, by simp [hq2], hr⟩
    | none =>
      rw [hxs] at h
      cases x with
      | none => simp at h
      | some ev =>
        simp only at h
        by_cases hc : (ev.type == "view" && ev.card_id == some cid) = true
        · rw [if_pos hc] at h
          cases h
          exact ⟨[], ev, xs, by simp, by simp [isViewFor, hc],
            by simp, updLast_none_iff.mp hxs⟩
        · rw [if_neg hc] at h
          cases h

theorem countP_trimQueue_le (p : Option TEvent → Bool) (q : List (Option TEvent)) :
    (trimQueue q).countP p ≤ q.countP p := by
  unfold trimQueue
  split
  · exact (List.drop_sublist _ _).countP_le p
  · exact le_rfl

theorem trimQueue_length (q : List (Option TEvent)) :
    (trimQueue q).length = min q.length (3 * MAX_BATCH_SIZE) := by
  unfold trimQueue
  split <;> simp <;> omega

theorem find?_append_of_countP_zero (p : Option TEvent → Bool)
    (l l' : List (Option TEvent)) (h : l.countP p = 0) :
    (l ++ l').find? p = l'.find? p := by
  induction l with
  | nil => simp
  | cons a t ih =>
    simp only [List.countP_cons] at h
    have hpa : p a = false := by
      by_cases hp : p a = true
      · simp [hp] at h
      · simpa using hp
    have ht : t.countP p = 0 := by omega
    simp [List.find?_cons, hpa, ih ht]

/-- The "at most one pending `view` per card" invariant of the telemetry
queue. -/
def ViewCoalesced (q : List (Option TEvent)) : Prop :=
  ∀ cid : Int, q.countP (isViewFor cid) ≤ 1

/-- The unique pending `view` event for a card id, if any (reads the queue
from the front; under `ViewCoalesced` there is at most one candidate). -/
def viewEntry (cid : Int) (q : List (Option TEvent)) : Option TEvent :=
  match q.find? (isViewFor cid) with
  | some (some ev) => some ev
  | some none => none
  | none => none

theorem ViewCoalesced_trimQueue {q : List (Option TEvent)} (hq : ViewCoalesced q) :
    ViewCoalesced (trimQueue q) :=
  fun cid => le_trans (countP_trimQueue_le _ q) (hq cid)

theorem countP_updLast {inc : TEvent} {cid : Int} {q q2 : List (Option TEvent)}
    (hupd : updLast inc cid q = some q2) (c : Int) :
    q2.countP (isViewFor c) = q.countP (isViewFor c) := by
  obtain ⟨l, old, r, hq', _, hq2, _⟩ := updLast_some_spec hupd
  subst hq'
  subst hq2
  simp [List.countP_append, List.countP_cons, isViewFor_mergeView]

theorem isViewFor_of_guard_false {ev : TEvent}
    (hg : (ev.type == "view" && ev.card_id.isSome) = false) (c : Int) :
    isViewFor c (some ev) = false := by
  simp only [Bool.and_eq_false_iff] at hg
  cases hg with
  | inl h => simp [isViewFor, h]
  | inr h =>
    have : ev.card_id = none := by
      cases hid : ev.card_id <;> simp [hid] at h ⊢
    simp [isViewFor, this]

theorem enqueue_preserves_coalesced (tg : Option Int) (e : Option TEvent)
    (q : List (Option TEvent)) (hq : ViewCoalesced q) :
    ViewCoalesced (enqueue tg e q) := by
  have hq1 : ViewCoalesced (trimQueue q) := ViewCoalesced_trimQueue hq
  unfold enqueue
  by_cases htg : tgTruthy tg
  · simp only [htg, not_true_eq_false, if_false]
    cases e with
    | none =>
      intro c
      dsimp only
      simp only [List.countP_append, List.countP_cons, List.countP_nil]
      have hn : isViewFor c none = false := rfl
      rw [hn]
      simp only [Bool.false_eq_true, if_false]
      have := hq1 c
      omega
    | some ev =>
      dsimp only
      by_cases hg : (ev.type == "view" && ev.card_id.isSome) = true
      · rw [if_pos hg]
        cases hid : ev.card_id with
        | none => simp [hid] at hg
        | some cid =>
          dsimp only
          cases hupd : updLast ev cid (trimQueue q) with
          | some q2 =>
            intro c
            rw [countP_updLast hupd c]
            exact hq1 c
          | none =>
            have h0 : (trimQueue q).countP (isViewFor cid) = 0 :=
              updLast_none_iff.mp hupd
            have hty : (ev.type == "view") = true := by
              have := hg
              simp only [Bool.and_eq_true] at this
              exact this.1
            intro c
            by_cases hc : c = cid
            · subst hc
              simp [List.countP_append, List.countP_cons, h0, isViewFor, hid, hty]
            · have hc' : cid ≠ c := fun h => hc h.symm
              have hv : isViewFor c (some ev) = false := by
                simp [isViewFor, hid, hc']
              simp only [List.countP_append, List.countP_cons, List.countP_nil, hv]
              have := hq1 c
              simp only [Bool.false_eq_true, if_false]
              omega
      · rw [if_neg hg]
        intro c
        simp only [List.countP_append, List.countP_cons, List.countP_nil,
          isViewFor_of_guard_false (Bool.eq_false_iff.mpr hg) c]
        have := hq1 c
        simp only [Bool.false_eq_true, if_false]
        omega
  · simp only [htg]
    simpa using hq

theorem viewEntry_of_decomp {cid : Int} {l r : List (Option TEvent)} {old : TEvent}
    (hl : l.countP (isViewFor cid) = 0) (hm : isViewFor cid (some old) = true) :
    viewEntry cid (l ++ some old :: r) = some old := by
  unfold viewEntry
  rw [find?_append_of_countP_zero _ _ _ hl, List.find?_cons_of_pos _ hm]

/-- CLAIM C2: the telemetry event queue coalesces `view` events: for every
card id (a finite number), the pending queue holds at most one `view` event
with that id, and this invariant is preserved by every `enqueue`; moreover,
enqueuing a second `view` for a card that already has one pending updates
that entry in place — the queue does not grow and the entry's `dwell_ms`
(read as `Number(x || 0)`) becomes the maximum of the old and new values. -/
theorem enqueue_coalesces_views (tg : Option Int) (e : Option TEvent)
    (q : List (Option TEvent)) (hq : ViewCoalesced q) :
    ViewCoalesced (enqueue tg e q) ∧
    (∀ ev cid old, e = some ev → ev.type = "view" → ev.card_id = some cid →
      tgTruthy tg = true → viewEntry cid (trimQueue q) = some old →
      (enqueue tg e q).length = (trimQueue q).length ∧
      viewEntry cid (enqueue tg e q) = some (mergeView old ev) ∧
      (mergeView old ev).dwell_ms.getD 0
        = max (old.dwell_ms.getD 0) (ev.dwell_ms.getD 0)) := by
  refine ⟨enqueue_preserves_coalesced tg e q hq, ?_⟩
  rintro ev cid old rfl hty hcid htg hentry
  have hq1 : ViewCoalesced (trimQueue q) := ViewCoalesced_trimQueue hq
  -- the entry reported by `viewEntry` is in the queue, so `updLast` finds one
  have hfind : (trimQueue q).find? (isViewFor cid) = some (some old) := by
    unfold viewEntry at hentry
    cases hf : (trimQueue q).find? (isViewFor cid) with
    | none => rw [hf] at hentry; cases hentry
    | some x =>
      cases x with
      | none => rw [hf] at hentry; cases hentry
      | some y => rw [hf] at hentry; cases hentry; rfl
  have hmem : some old ∈ trimQueue q := List.mem_of_find?_eq_some hfind
  have hpos : 0 < (trimQueue q).countP (isViewFor cid) :=
    List.countP_pos_iff.mpr ⟨some old, hmem, List.find?_some hfind⟩
  have hne : updLast ev cid (trimQueue q) ≠ none := by
    intro h0
    rw [updLast_none_iff.mp h0] at hpos
    exact absurd hpos (by omega)
  cases hupd : updLast ev cid (trimQueue q) with
  | none => exact absurd hupd hne
  | some q2 =>
    obtain ⟨l, old', r, hdec, hm, hq2, hr⟩ := updLast_some_spec hupd
    have hl0 : l.countP (isViewFor cid) = 0 := by
      have := hq1 cid
      rw [hdec] at this
      simp [List.countP_append, List.countP_cons, hm] at this
      omega
    have hold : old = old' := by
      have : viewEntry cid (trimQueue q) = some old' := by
        rw [hdec]; exact viewEntry_of_decomp hl0 hm
      rw [hentry] at this
      cases this; rfl
    subst hold
    have henq : enqueue tg (some ev) q = q2 := by
      unfold enqueue
      simp only [htg, not_true_eq_false, if_false]
      have hg : (ev.type == "view" && ev.card_id.isSome) = true := by
        simp [hty, hcid]
      rw [if_pos hg, hcid]
      simp only [hupd]
    refine ⟨by rw [henq]; exact updLast_length hupd, ?_, mergeView_dwell old ev⟩
    rw [henq, hq2]
    have hm2 : isViewFor cid (some (mergeView old ev)) = true := by
      rw [isViewFor_mergeView]; exact hm
    exact viewEntry_of_decomp hl0 hm2

/-- Witness for C2 at a concrete queue: a pending `view` for card 7 with
`dwell_ms = 100` coalesced with a new `view` carrying `dwell_ms = 250`. -/
theorem enqueue_coalesces_views_witness :
    viewEntry 7 (enqueue (some 1)
        (some ⟨"view", some 7, some "t2", some 250, some 0, some "webapp", none⟩)
        [some ⟨"view", some 7, some "t1", some 100, some 0, some "webapp", none⟩])
      = some ⟨"view", some 7, some "t2", some 250, some 0, some "webapp", none⟩ := by
  have h := (enqueue_coalesces_views (some 1)
      (some ⟨"view", some 7, some "t2", some 250, some 0, some "webapp", none⟩)
      [some ⟨"view", some 7, some "t1", some 100, some 0, some "webapp", none⟩]
      (by
        intro cid
        simp only [List.countP_cons, List.countP_nil, Nat.zero_add]
        split <;> omega)).2
      ⟨"view", some 7, some "t2", some 250, some 0, some "webapp", none⟩ 7
      ⟨"view", some 7, some "t1", some 100, some 0, some "webapp", none⟩
      rfl rfl rfl rfl (by decide)
  rw [h.2.1]
  decide

/-- CLAIM C9: the telemetry queue is memory-bounded: `enqueue` keeps the
queue length at or below `3 * MAX_BATCH_SIZE + 1 = 151`, and when the queue
holds more than `3 * MAX_BATCH_SIZE` entries the oldest ones are dropped
from the front (only the newest `3 * MAX_BATCH_SIZE` survive) before the
incoming event is handled. -/
theorem enqueue_queue_bounded (tg : Option Int) (e : Option TEvent)
    (q : List (Option TEvent)) :
    (q.length ≤ 3 * MAX_BATCH_SIZE + 1 →
      (enqueue tg e q).length ≤ 3 * MAX_BATCH_SIZE + 1) ∧
    (3 * MAX_BATCH_SIZE < q.length →
      trimQueue q = q.drop (q.length - 3 * MAX_BATCH_SIZE)) := by
  constructor
  · intro _
    have htrim : (trimQueue q).length = min q.length (3 * MAX_BATCH_SIZE) :=
      trimQueue_length q
    unfold enqueue
    by_cases htg : tgTruthy tg
    · simp only [htg, not_true_eq_false, if_false]
      cases e with
      | none =>
        dsimp only
        simp only [List.length_append, List.length_cons, List.length_nil]
        omega
      | some ev =>
        dsimp only
        by_cases hg : (ev.type == "view" && ev.card_id.isSome) = true
        · rw [if_pos hg]
          cases hid : ev.card_id with
          | none => simp [hid] at hg
          | some cid =>
            dsimp only
            cases hupd : updLast ev cid (trimQueue q) with
            | some q2 =>
              simp only [hupd]
              rw [updLast_length hupd]
              omega
            | none =>
              simp only [hupd, List.length_append, List.length_cons, List.length_nil]
              omega
        · rw [if_neg hg]
          simp only [List.length_append, List.length_cons, List.length_nil]
          omega
    · simp only [htg]
      simpa using (by assumption : q.length ≤ 3 * MAX_BATCH_SIZE + 1)
  · intro h
    unfold trimQueue
    rw [if_pos h]

/-- Witness for C9: a full queue of 151 `like` events plus one more stays at
151 entries, and the trim keeps the newest 150 of a 151-element queue. -/
theorem enqueue_queue_bounded_witness :
    (enqueue (some 1) (some ⟨"like", some 3, some "t", none, none, some "webapp", none⟩)
        (List.replicate 151 (some ⟨"like", some 9, some "t", none, none, some "webapp", none⟩))).length
      ≤ 3 * MAX_BATCH_SIZE + 1 := by
  refine (enqueue_queue_bounded (some 1)
      (some ⟨"like", some 3, some "t", none, none, some "webapp", none⟩)
      (List.replicate 151 (some ⟨"like", some 9, some "t", none, none, some "webapp", none⟩))).1 ?_
  simp [MAX_BATCH_SIZE]

/-! ## Claims C3 and C4 — flush -/

/-- CLAIM C3: telemetry is sent in batches, best effort: every `flush`
removes at most `MAX_BATCH_SIZE = 50` events from the front of the queue
and POSTs them in a single request to `/api/events` with the current
`tg_id`; with an empty queue or unset `tg_id` it sends nothing; and a
network failure never propagates an exception out of `flush` (the result
is always `Except.ok`). -/
theorem flush_batched_best_effort (tg : Option Int) (netOk : Bool)
    (q : List (Option TEvent)) :
    ∃ q2 req, flush tg netOk q = Except.ok (q2, req) ∧
      (∃ k, k ≤ MAX_BATCH_SIZE ∧ q2 = q.drop k) ∧
      ((q = [] ∨ tgTruthy tg = false) → q2 = q ∧ req = none) ∧
      (∀ n, tg = some n → n ≠ 0 → q ≠ [] →
        req = some ⟨API_PATH, n, q.take MAX_BATCH_SIZE⟩) := by
  cases tg with
  | none =>
    refine ⟨q, none, rfl, ⟨0, by omega, by simp⟩, fun _ => ⟨rfl, rfl⟩, ?_⟩
    intro n h
    cases h
  | some n =>
    by_cases hguard : q.length = 0 ∨ n = 0
    · refine ⟨q, none, ?_, ⟨0, by omega, by simp⟩, fun _ => ⟨rfl, rfl⟩, ?_⟩
      · unfold flush
        dsimp only
        rw [if_pos hguard]
      · intro m hm hm0 hq
        cases hm
        cases hguard with
        | inl h => exact absurd (List.length_eq_zero.mp h) hq
        | inr h => exact absurd h hm0
    · have hbatch : (q.take MAX_BATCH_SIZE).length ≤ MAX_BATCH_SIZE := by
        simp [List.length_take]
      cases netOk with
      | true =>
        refine ⟨q.drop MAX_BATCH_SIZE, some ⟨API_PATH, n, q.take MAX_BATCH_SIZE⟩, ?_,
          ⟨MAX_BATCH_SIZE, le_rfl, rfl⟩, ?_, fun _ hm _ _ => by cases hm; rfl⟩
        · unfold flush
          dsimp only
          rw [if_neg hguard]
          rfl
        · intro h
          cases h with
          | inl h => exact absurd (by simp [h]) hguard
          | inr h =>
            simp only [tgTruthy, bne_eq_false_iff_eq] at h
            exact absurd (Or.inr h) hguard
      | false =>
        have hre : (q.take MAX_BATCH_SIZE).drop ((q.take MAX_BATCH_SIZE).length - MAX_BATCH_SIZE)
            ++ q.drop MAX_BATCH_SIZE = q := by
          have h0 : (q.take MAX_BATCH_SIZE).length - MAX_BATCH_SIZE = 0 := by omega
          rw [h0, List.drop_zero, List.take_append_drop]
        refine ⟨q, some ⟨API_PATH, n, q.take MAX_BATCH_SIZE⟩, ?_,
          ⟨0, by omega, by simp⟩, ?_, fun _ hm _ _ => by cases hm; rfl⟩
        · unfold flush
          dsimp only
          rw [if_neg hguard]
          simp only [fetchPost, Bool.false_eq_true, if_false]
          rw [hre]
        · intro h
          cases h with
          | inl h => exact absurd (by simp [h]) hguard
          | inr h =>
            simp only [tgTruthy, bne_eq_false_iff_eq] at h
            exact absurd (Or.inr h) hguard

/-- Witness for C3: a successful flush of a one-event queue issues a single
request carrying the queued event, for `tg_id = 1`. -/
theorem flush_batched_best_effort_witness :
    ∃ q2 req,
      flush (some 1) true [some ⟨"view", some 7, some "t", some 5, none, some "webapp", none⟩]
        = Except.ok (q2, req) ∧
      req = some ⟨API_PATH, 1,
        [some ⟨"view", some 7, some "t", some 5, none, some "webapp", none⟩].take MAX_BATCH_SIZE⟩ := by
  obtain ⟨q2, req, heq, _, _, hreq⟩ := flush_batched_best_effort (some 1) true
    [some ⟨"view", some 7, some "t", some 5, none, some "webapp", none⟩]
  exact ⟨q2, req, heq, hreq 1 rfl (by decide) (by decide)⟩

/-- CLAIM C4 counterexample: the claim says a batch whose send fails is not
re-queued; but `flush` with a failing network puts the batch back at the
front of the queue (telemetry.js line 148), so the event is still pending
afterwards. -/
theorem flush_requeues_failed_batch_cex :
    flush (some 1) false [some ⟨"view", some 7, some "t", some 5, none, some "webapp", none⟩]
      = Except.ok ([some ⟨"view", some 7, some "t", some 5, none, some "webapp", none⟩],
          some ⟨API_PATH, 1,
            [some ⟨"view", some 7, some "t", some 5, none, some "webapp", none⟩]⟩) := by
  rfl

/-- CLAIM C4 (amended): when the send fails, `flush` unshifts the whole
batch back onto the front of the queue — the queue is exactly as before the
call — so the events remain pending and are retried by a later flush; there
is no further retry protocol or persistence beyond this re-queueing. -/
theorem flush_requeues_failed_batch (n : Int) (q : List (Option TEvent))
    (hn : n ≠ 0) (hq : q ≠ []) :
    flush (some n) false q = Except.ok (q, some ⟨API_PATH, n, q.take MAX_BATCH_SIZE⟩) := by
  have hguard : ¬ (q.length = 0 ∨ n = 0) := by
    intro h
    cases h with
    | inl h => exact hq (List.length_eq_zero.mp h)
    | inr h => exact hn h
  have hbatch : (q.take MAX_BATCH_SIZE).length ≤ MAX_BATCH_SIZE := by
    simp [List.length_take]
  unfold flush
  dsimp only
  rw [if_neg hguard]
  simp only [fetchPost, Bool.false_eq_true, if_false]
  have h0 : (q.take MAX_BATCH_SIZE).length - MAX_BATCH_SIZE = 0 := by omega
  rw [h0, List.drop_zero, List.take_append_drop]

/-- Witness for the amended C4 at a concrete two-event queue. -/
theorem flush_requeues_failed_batch_witness :
    flush (some 1) false
        [some ⟨"like", some 7, some "t", none, none, some "webapp", none⟩,
         some ⟨"view", some 8, some "t", some 5, none, some "webapp", none⟩]
      = Except.ok
          ([some ⟨"like", some 7, some "t", none, none, some "webapp", none⟩,
            some ⟨"view", some 8, some "t", some 5, none, some "webapp", none⟩],
           some ⟨API_PATH, 1,
            [some ⟨"like", some 7, some "t", none, none, some "webapp", none⟩,
             some ⟨"view", some 8, some "t", some 5, none, some "webapp", none⟩]⟩) :=
  flush_requeues_failed_batch 1 _ (by decide) (by decide)

/-! ## webapp/app.js — feed items and deduplication

Item ids come from backend JSON and may be numbers or strings (`String(id)`
is applied before use as a key); the rest of a card is opaque here.
`state.seenIds` is a plain JavaScript object literal `{}` used as a set:
`state.seenIds[key] = true` records a key, and the guard
`if (!state.seenIds[key])` reads the property THROUGH THE PROTOTYPE CHAIN,
so every property of `Object.prototype` (all of which are truthy function
or accessor values) reads as "already seen" even though it was never
recorded. -/

inductive JsPrim where
  | num (n : Int)
  | str (s : String)
  deriving Repr, DecidableEq

/-- `String(id)` for the id values that occur (numbers and strings). -/
def jsString : JsPrim → String
  | .num n => toString n
  | .str s => s

structure Item where
  id : Option JsPrim
  payload : String
  deriving Repr, DecidableEq, Inhabited

/-- The own properties of `Object.prototype` in ECMAScript, i.e. the keys
that are truthy on an empty object literal `{}`. -/
def OBJECT_PROTOTYPE_KEYS : List String :=
  ["constructor", "hasOwnProperty", "isPrototypeOf", "propertyIsEnumerable",
   "toLocaleString", "toString", "valueOf", "__defineGetter__",
   "__defineSetter__", "__lookupGetter__", "__lookupSetter__", "__proto__"]

/-- Truthiness of `seenObject[key]` where `seenObject` started as `{}` and
the recorded own properties are `seen`: own properties first, then the
prototype chain. -/
def seenHas (seen : List String) (key : String) : Bool :=
  seen.contains key || OBJECT_PROTOTYPE_KEYS.contains key

/-- One iteration of the loop in `appendNewItems` (app.js lines 384–396):
a `null`/`undefined` id is pushed unconditionally; otherwise the item is
pushed and its key recorded unless `seenIds[key]` is truthy. -/
def appendNewItemsStep (acc : List Item × List String) (it : Item) :
    List Item × List String :=
  match it.id with
  | none => (acc.1 ++ [it], acc.2)
  | some j =>
    let key := jsString j
    if seenHas acc.2 key then acc
    else (acc.1 ++ [it], key :: acc.2)

/-- `appendNewItems` (app.js lines 381–397), acting on
(`state.feedItems`, `state.seenIds`). -/
def appendNewItems (feed : List Item) (seen : List String) (items : List Item) :
    List Item × List String :=
  items.foldl appendNewItemsStep (feed, seen)

/-- The duplicate-freedom invariant of the feed: every non-null id occurs
at most once in `feedItems`, and the stringified id of every feed item
reads as seen. -/
def FeedIdsCoalesced (feed : List Item) (seen : List String) : Prop :=
  (∀ j : JsPrim, feed.countP (fun it => it.id == some j) ≤ 1) ∧
  (∀ it ∈ feed, ∀ j, it.id = some j → seenHas seen (jsString j) = true)

theorem seenHas_cons_self (seen : List String) (key : String) :
    seenHas (key :: seen) key = true := by
  simp [seenHas, List.contains_cons]

theorem seenHas_mono {seen : List String} {k : String} (key : String)
    (h : seenHas seen k = true) : seenHas (key :: seen) k = true := by
  simp only [seenHas, List.contains_cons, Bool.or_eq_true] at h ⊢
  tauto

theorem appendNewItemsStep_inv (feed : List Item) (seen : List String) (it : Item)
    (h : FeedIdsCoalesced feed seen) :
    FeedIdsCoalesced (appendNewItemsStep (feed, seen) it).1
      (appendNewItemsStep (feed, seen) it).2 ∧
    (appendNewItemsStep (feed, seen) it).1.countP (fun x => x.id == none)
      = feed.countP (fun x => x.id == none)
        + (if it.id == none then 1 else 0) := by
  obtain ⟨hcnt, hcl⟩ := h
  cases hid : it.id with
  | none =>
    have he : appendNewItemsStep (feed, seen) it = (feed ++ [it], seen) := by
      simp [appendNewItemsStep, hid]
    rw [he]
    refine ⟨⟨?_, ?_⟩, ?_⟩
    · intro j
      have := hcnt j
      have hne : (it.id == some j) = false := by simp [hid]
      simp only [List.countP_append, List.countP_cons, List.countP_nil, hne]
      simp only [Bool.false_eq_true, if_false]
      omega
    · intro x hx j hj
      rcases List.mem_append.mp hx with hx | hx
      · exact hcl x hx j hj
      · rw [List.mem_singleton.mp hx] at hj
        rw [hid] at hj
        cases hj
    · simp [List.countP_append, List.countP_cons, hid]
  | some j =>
    by_cases hs : seenHas seen (jsString j) = true
    · have he : appendNewItemsStep (feed, seen) it = (feed, seen) := by
        simp [appendNewItemsStep, hid, hs]
      rw [he]
      refine ⟨⟨hcnt, hcl⟩, ?_⟩
      simp [hid]
    · have he : appendNewItemsStep (feed, seen) it
          = (feed ++ [it], jsString j :: seen) := by
        simp [appendNewItemsStep, hid, hs]
      have hzero : feed.countP (fun x => x.id == some j) = 0 := by
        rw [List.countP_eq_zero]
        intro a ha haj
        simp only [beq_iff_eq] at haj
        exact hs (hcl a ha j haj)
      rw [he]
      refine ⟨⟨?_, ?_⟩, ?_⟩
      · intro j'
        simp only [List.countP_append, List.countP_cons, List.countP_nil]
        by_cases hjj : j' = j
        · subst hjj
          have hyes : (it.id == some j') = true := by simp [hid]
          rw [hzero, hyes]
          simp
        · have := hcnt j'
          have hne : (it.id == some j') = false := by
            rw [hid]
            have hjne : j ≠ j' := fun hcon => hjj hcon.symm
            simp [hjne]
          rw [hne]
          simp only [Bool.false_eq_true, if_false]
          omega
      · intro x hx j' hj'
        rcases List.mem_append.mp hx with hx | hx
        · exact seenHas_mono _ (hcl x hx j' hj')
        · rw [List.mem_singleton.mp hx] at hj'
          rw [hid] at hj'
          cases hj'
          exact seenHas_cons_self seen (jsString j)
      · have hne : (it.id == (none : Option JsPrim)) = false := by simp [hid]
        simp [List.countP_append, List.countP_cons, hne]

/-- CLAIM C8 counterexample: an item whose id is the string `"toString"`
is skipped even though nothing was ever recorded in `seenIds` (the empty
object literal inherits a truthy `toString` from `Object.prototype`), so
"skips only ids already recorded in seenIds / records every appended id"
is false as stated. -/
theorem appendNewItems_proto_key_cex :
    appendNewItems [] [] [⟨some (JsPrim.str "toString"), "card"⟩] = ([], []) := by
  decide

/-- CLAIM C8 (amended): the feed never contains duplicate cards — for every
non-null id at most one item with that id is present, and this invariant is
preserved by `appendNewItems`, which skips any incoming item whose
stringified id is already recorded in `seenIds` OR collides with an
`Object.prototype` property name (the seen-set is a plain `{}` object and
the membership test reads through the prototype chain), records the id of
every item it appends, and always appends items with a null or undefined
id. -/
theorem appendNewItems_no_duplicate_ids (feed : List Item) (seen : List String)
    (items : List Item) (h : FeedIdsCoalesced feed seen) :
    FeedIdsCoalesced (appendNewItems feed seen items).1
      (appendNewItems feed seen items).2 ∧
    (appendNewItems feed seen items).1.countP (fun it => it.id == none)
      = feed.countP (fun it => it.id == none)
        + items.countP (fun it => it.id == none) := by
  induction items generalizing feed seen with
  | nil =>
    exact ⟨h, by simp [appendNewItems]⟩
  | cons it rest ih =>
    obtain ⟨hstep, hcount⟩ := appendNewItemsStep_inv feed seen it h
    have hrec := ih (appendNewItemsStep (feed, seen) it).1
      (appendNewItemsStep (feed, seen) it).2 hstep
    have heq : appendNewItems feed seen (it :: rest)
        = appendNewItems (appendNewItemsStep (feed, seen) it).1
            (appendNewItemsStep (feed, seen) it).2 rest := by
      simp [appendNewItems, List.foldl_cons]
    rw [heq]
    refine ⟨hrec.1, ?_⟩
    rw [hrec.2, hcount, List.countP_cons]
    omega

/-- Witness for the amended C8: from an empty feed, one numbered card and
one id-less card are both appended; the id-less count is 1. -/
theorem appendNewItems_no_duplicate_ids_witness :
    (appendNewItems [] [] [⟨some (JsPrim.num 1), "a"⟩, ⟨none, "b"⟩]).1.countP
        (fun it => it.id == none) = 1 := by
  have h := (appendNewItems_no_duplicate_ids [] []
      [⟨some (JsPrim.num 1), "a"⟩, ⟨none, "b"⟩]
      ⟨by intro j; simp, by intro it hit; simp at hit⟩).2
  simpa using h

/-! ## escapeHtml (app.js lines 79–87)

`String.prototype.replace` with a global single-character pattern replaces
every occurrence of that character; the five replacements are applied in
sequence, `&` first. -/

/-- `str.replace(/c/g, rep)` for a single-character pattern `c`. -/
def replaceChar (c : Char) (rep : List Char) : List Char → List Char
  | [] => []
  | d :: ds => (if d = c then rep else [d]) ++ replaceChar c rep ds

/-- `escapeHtml` (app.js lines 79–87): falsy input (the empty string, for
string-typed input) maps to `""`; otherwise `&`, `<`, `>`, `"`, `'` are
replaced in that order by their HTML entities. -/
def escapeHtml (s : String) : String :=
  if s = "" then ""
  else String.mk (replaceChar '\x27' ("&#039;").data
    (replaceChar '"' ("&quot;").data
      (replaceChar '>' ("&gt;").data
        (replaceChar '<' ("&lt;").data
          (replaceChar '&' ("&amp;").data s.data)))))

/-- Per-character view of the chained replacements (proved equal below):
what one input character contributes to the output. -/
def escChar (c : Char) : List Char :=
  if c = '&' then ("&amp;").data
  else if c = '<' then ("&lt;").data
  else if c = '>' then ("&gt;").data
  else if c = '"' then ("&quot;").data
  else if c = '\x27' then ("&#039;").data
  else [c]

/-- Every `&` in a character list starts one of the five entities
`&amp; &lt; &gt; &quot; &#039;`. -/
def ampEntityOk : List Char → Prop
  | [] => True
  | c :: rest =>
    (c = '&' → (rest.take 4 = ("amp;").data ∨ rest.take 3 = ("lt;").data ∨
      rest.take 3 = ("gt;").data ∨ rest.take 5 = ("quot;").data ∨
      rest.take 5 = ("#039;").data)) ∧ ampEntityOk rest

instance : DecidablePred ampEntityOk := fun l => by
  induction l with
  | nil => exact isTrue trivial
  | cons c rest ih => exact @instDecidableAnd _ _ _ ih

theorem replaceChar_append (c : Char) (rep xs ys : List Char) :
    replaceChar c rep (xs ++ ys) = replaceChar c rep xs ++ replaceChar c rep ys := by
  induction xs with
  | nil => rfl
  | cons d ds ih => simp [replaceChar, ih, List.append_assoc]

/-- The full replacement chain of `escapeHtml` on a character list. -/
def escapeChain (l : List Char) : List Char :=
  replaceChar '\x27' ("&#039;").data
    (replaceChar '"' ("&quot;").data
      (replaceChar '>' ("&gt;").data
        (replaceChar '<' ("&lt;").data
          (replaceChar '&' ("&amp;").data l))))

theorem escapeChain_cons (d : Char) (ds : List Char) :
    escapeChain (d :: ds) = escChar d ++ escapeChain ds := by
  unfold escapeChain
  have h1 : replaceChar '&' ("&amp;").data (d :: ds)
      = (if d = '&' then ("&amp;").data else [d]) ++ replaceChar '&' ("&amp;").data ds := rfl
  rw [h1]
  rw [replaceChar_append, replaceChar_append, replaceChar_append, replaceChar_append]
  congr 1
  by_cases h2 : d = '&'
  · subst h2; rw [if_pos rfl]; rfl
  rw [if_neg h2]
  by_cases h3 : d = '<'
  · subst h3; rfl
  by_cases h4 : d = '>'
  · subst h4; rfl
  by_cases h5 : d = '"'
  · subst h5; rfl
  by_cases h6 : d = '\x27'
  · subst h6; rfl
  simp [replaceChar, escChar, h2, h3, h4, h5, h6]

theorem escChar_no_special (d : Char) :
    ∀ c ∈ escChar d, c ≠ '<' ∧ c ≠ '>' ∧ c ≠ '"' ∧ c ≠ '\x27' := by
  unfold escChar
  by_cases h2 : d = '&'
  · subst h2; simp only [if_pos rfl]; decide
  rw [if_neg h2]
  by_cases h3 : d = '<'
  · subst h3; simp only [if_pos rfl]; decide
  rw [if_neg h3]
  by_cases h4 : d = '>'
  · subst h4; simp only [if_pos rfl]; decide
  rw [if_neg h4]
  by_cases h5 : d = '"'
  · subst h5; simp only [if_pos rfl]; decide
  rw [if_neg h5]
  by_cases h6 : d = '\x27'
  · subst h6; simp only [if_pos rfl]; decide
  rw [if_neg h6]
  intro c hc
  rw [List.mem_singleton.mp hc]
  exact ⟨h3, h4, h5, h6⟩

theorem ampEntityOk_escChar (d : Char) (rest : List Char) (h : ampEntityOk rest) :
    ampEntityOk (escChar d ++ rest) := by
  unfold escChar
  by_cases h2 : d = '&'
  · subst h2; rw [if_pos rfl]
    exact ⟨fun _ => Or.inl rfl, fun hc => absurd hc (by decide),
      fun hc => absurd hc (by decide), fun hc => absurd hc (by decide),
      fun hc => absurd hc (by decide), h⟩
  rw [if_neg h2]
  by_cases h3 : d = '<'
  · subst h3; rw [if_pos rfl]
    exact ⟨fun _ => Or.inr (Or.inl rfl), fun hc => absurd hc (by decide),
      fun hc => absurd hc (by decide), fun hc => absurd hc (by decide), h⟩
  rw [if_neg h3]
  by_cases h4 : d = '>'
  · subst h4; rw [if_pos rfl]
    exact ⟨fun _ => Or.inr (Or.inr (Or.inl rfl)), fun hc => absurd hc (by decide),
      fun hc => absurd hc (by decide), fun hc => absurd hc (by decide), h⟩
  rw [if_neg h4]
  by_cases h5 : d = '"'
  · subst h5; rw [if_pos rfl]
    exact ⟨fun _ => Or.inr (Or.inr (Or.inr (Or.inl rfl))),
      fun hc => absurd hc (by decide), fun hc => absurd hc (by decide),
      fun hc => absurd hc (by decide), fun hc => absurd hc (by decide),
      fun hc => absurd hc (by decide), h⟩
  rw [if_neg h5]
  by_cases h6 : d = '\x27'
  · subst h6; rw [if_pos rfl]
    exact ⟨fun _ => Or.inr (Or.inr (Or.inr (Or.inr rfl))),
      fun hc => absurd hc (by decide), fun hc => absurd hc (by decide),
      fun hc => absurd hc (by decide), fun hc => absurd hc (by decide),
      fun hc => absurd hc (by decide), h⟩
  rw [if_neg h6]
  exact ⟨fun hc => absurd hc h2, h⟩

theorem escapeChain_props (l : List Char) :
    (∀ c ∈ escapeChain l, c ≠ '<' ∧ c ≠ '>' ∧ c ≠ '"' ∧ c ≠ '\x27') ∧
    ampEntityOk (escapeChain l) := by
  induction l with
  | nil => exact ⟨fun c hc => absurd hc (List.not_mem_nil c), trivial⟩
  | cons d ds ih =>
    rw [escapeChain_cons]
    refine ⟨?_, ampEntityOk_escChar d _ ih.2⟩
    intro c hc
    rcases List.mem_append.mp hc with hc | hc
    · exact escChar_no_special d c hc
    · exact ih.1 c hc

/-- CLAIM C10: `escapeHtml` output never contains `<`, `>`, `"` or `'`;
every `&` in the output is the first character of one of the entities
`&amp;`, `&lt;`, `&gt;`, `&quot;`, `&#039;`; and a falsy (empty) input
produces the empty string. -/
theorem escapeHtml_escapes (s : String) :
    (∀ c ∈ (escapeHtml s).data, c ≠ '<' ∧ c ≠ '>' ∧ c ≠ '"' ∧ c ≠ '\x27') ∧
    ampEntityOk (escapeHtml s).data ∧
    escapeHtml "" = "" := by
  refine ⟨?_, ?_, rfl⟩ <;> unfold escapeHtml
  · by_cases hs : s = ""
    · rw [if_pos hs]
      intro c hc
      cases hc
    · rw [if_neg hs]
      exact (escapeChain_props s.data).1
  · by_cases hs : s = ""
    · rw [if_pos hs]
      trivial
    · rw [if_neg hs]
      exact (escapeChain_props s.data).2

/-- Witness for C10 on the concrete input `a<b&c"`. -/
theorem escapeHtml_escapes_witness :
    ('a' ≠ '<' ∧ 'a' ≠ '>' ∧ 'a' ≠ '"' ∧ 'a' ≠ '\x27') ∧
    ampEntityOk (escapeHtml ("a<b&c\x22")).data := by
  exact ⟨(escapeHtml_escapes ("a<b&c\x22")).1 'a' (by decide),
    (escapeHtml_escapes ("a<b&c\x22")).2.1⟩

/-! ## Telegram id resolution (app.js lines 89–113) -/

/-- Value of a list of decimal digit characters. -/
def digitsToNat (l : List Char) : Nat :=
  l.foldl (fun acc c => acc * 10 + (c.toNat - ('0').toNat)) 0

/-- Models `Number(raw)` combined with the `isNaN` test of
`getTgIdFromLocation`, restricted to optionally-signed decimal integer
strings: those parse to their value (`some`), every other non-empty string
is treated as `NaN` (`none`); `Number("") = 0` is kept for fidelity though
`getTgIdFromLocation` filters the empty string out first.  (Real
JavaScript also parses floats, exponents and hex literals; those inputs
are outside this model.) -/
def jsNumber (s : String) : Option Int :=
  match s.data with
  | [] => some 0
  | '-' :: rest =>
    if rest ≠ [] ∧ rest.all (fun c => c.isDigit) then some (-(digitsToNat rest : Int))
    else none
  | l =>
    if l.all (fun c => c.isDigit) then some (digitsToNat l) else none

/-- Truthiness of a JavaScript number-or-string value (`0` and `""` are
falsy). -/
def jsPrimTruthy : JsPrim → Bool
  | .num n => n != 0
  | .str s => s != ""

/-- `getTgIdFromLocation` (app.js lines 89–96): read the `tg_id` query
parameter; a missing or empty value gives `null`; a value whose `Number`
is not `NaN` is returned as that number; anything else is returned as the
raw string. -/
def getTgIdFromLocation (query : Option String) : Option JsPrim :=
  match query with
  | none => none
  | some raw =>
    if raw = "" then none
    else
      match jsNumber raw with
      | some n => some (JsPrim.num n)
      | none => some (JsPrim.str raw)

/-- `resolveTgId` (app.js lines 98–113): `bridgeId` is the value of
`window.Telegram.WebApp.initDataUnsafe.user.id` when the whole property
chain exists (`none` when any link is missing or an exception is thrown);
the chain's final conjunct is the truthiness of the id itself, so a falsy
id also falls through to the URL. -/
def resolveTgId (bridgeId : Option JsPrim) (query : Option String) : Option JsPrim :=
  match bridgeId with
  | some v => if jsPrimTruthy v then some v else getTgIdFromLocation query
  | none => getTgIdFromLocation query

/-- CLAIM C7 counterexample: a bridge id of `0` is present (the property
chain exists) but falsy, so the code falls back to the URL parameter
instead of returning the bridge id, contradicting "only if that is
absent". -/
theorem resolveTgId_falsy_bridge_cex :
    resolveTgId (some (JsPrim.num 0)) (some "5") = some (JsPrim.num 5) ∧
    resolveTgId (some (JsPrim.num 0)) (some "5") ≠ some (JsPrim.num 0) := by
  constructor
  · rfl
  · intro h
    cases h

/-- CLAIM C7 (amended): the Telegram user id is resolved by first
consulting the WebApp bridge and falling back to the `tg_id` query
parameter only when the bridge id is absent OR falsy (e.g. `0` or `""`);
a query value that parses as a number is returned as a number, any other
non-empty value as the raw string, and the result is `null` when neither
source provides an identifier. -/
theorem resolveTgId_resolution (bridgeId : Option JsPrim) (query : Option String) :
    (∀ v, bridgeId = some v → jsPrimTruthy v = true →
      resolveTgId bridgeId query = some v) ∧
    ((bridgeId = none ∨ ∃ v, bridgeId = some v ∧ jsPrimTruthy v = false) →
      resolveTgId bridgeId query = getTgIdFromLocation query) ∧
    getTgIdFromLocation none = none ∧
    getTgIdFromLocation (some "") = none ∧
    (∀ raw n, raw ≠ "" → jsNumber raw = some n →
      getTgIdFromLocation (some raw) = some (JsPrim.num n)) ∧
    (∀ raw, raw ≠ "" → jsNumber raw = none →
      getTgIdFromLocation (some raw) = some (JsPrim.str raw)) := by
  refine ⟨?_, ?_, rfl, rfl, ?_, ?_⟩
  · rintro v rfl hv
    simp [resolveTgId, hv]
  · rintro (rfl | ⟨v, rfl, hv⟩)
    · rfl
    · simp [resolveTgId, hv]
  · intro raw n hraw hnum
    simp [getTgIdFromLocation, hraw, hnum]
  · intro raw hraw hnum
    simp [getTgIdFromLocation, hraw, hnum]

/-- Witness for the amended C7: a truthy bridge id wins over the URL, and
the URL value `"abc"` (NaN) comes back as a raw string when the bridge is
missing. -/
theorem resolveTgId_resolution_witness :
    resolveTgId (some (JsPrim.num 7)) (some "abc") = some (JsPrim.num 7) ∧
    resolveTgId none (some "abc") = some (JsPrim.str "abc") := by
  constructor
  · exact (resolveTgId_resolution (some (JsPrim.num 7)) (some "abc")).1
      (JsPrim.num 7) rfl (by decide)
  · rw [(resolveTgId_resolution none (some "abc")).2.1 (Or.inl rfl)]
    exact (resolveTgId_resolution none (some "abc")).2.2.2.2.2 "abc"
      (by decide) (by decide)

/-! ## loadFeed (app.js lines 399–493)

The fetch outcome is abstracted into a response value: a non-ok HTTP
status, a network/parse error (one rejected promise reaches the single
`.catch`), or a parsed JSON body.  `data.items || []` and
`data.debug || {}` are the `Option.getD` defaults; a `debug` field that is
present but of the wrong type behaves like an absent one
(`typeof debug.has_more === "boolean"`, `typeof debug.next_offset ===
"number"`), so those fields are modelled as `Option`s that are `some` only
for well-typed values.  The `EYYETelemetry.onCardShown` call inside
`renderCurrentCard` does not touch the feed state and is modelled
separately. -/

structure DebugInfo where
  has_more : Option Bool
  next_offset : Option Int
  reason : Option String
  deriving Repr, DecidableEq, Inhabited

structure FeedData where
  items : Option (List Item)
  debug : Option DebugInfo
  deriving Repr, DecidableEq, Inhabited

inductive FeedResp where
  | httpError (status : Nat)
  | networkError
  | success (data : FeedData)
  deriving Repr, DecidableEq

/-- The slice of `state` that `loadFeed` / `renderCurrentCard` read and
write (app.js lines 30–50). -/
structure FeedState where
  tgId : Option JsPrim
  feedItems : List Item
  currentIndex : Int
  loadingFeed : Bool
  hasMore : Bool
  nextOffset : Int
  seenIds : List String
  deriving Repr, DecidableEq

/-- What got written into the card container this call. -/
inductive RenderOut where
  | nothing
  | emptyFeed (msg : String)
  | card (index : Int)
  deriving Repr, DecidableEq

/-- Truthiness of `state.tgId` (`null`, `0` and `""` are falsy). -/
def tgIdTruthy : Option JsPrim → Bool
  | none => false
  | some v => jsPrimTruthy v

def MSG_NO_TG : String :=
  "Не удалось получить твой Telegram ID. Открой WebApp через кнопку в боте и попробуй снова."

def MSG_FEED_HTTP_ERROR : String :=
  "Не получилось загрузить ленту. Попробуй открыть WebApp чуть позже."

def MSG_FEED_NETWORK_ERROR : String :=
  "Не получилось загрузить ленту. Проверь интернет и попробуй ещё раз."

def MSG_FEED_NO_CARDS : String :=
  "Пока нет новостей по выбранным темам. Я обновлю ленту, как только появятся свежие карточки."

def MSG_FEED_EMPTY_DEFAULT : String :=
  "Пока для тебя нет готовых карточек. Я уже готовлю контент — загляни сюда чуть позже."

/-- `var limit = 20` (app.js line 424). -/
def FEED_LIMIT : Nat := 20

/-- `renderCurrentCard` (app.js lines 311–379), restricted to its effect on
the feed state (clamping `currentIndex`) and the rendered output. -/
def renderCurrentCard (st : FeedState) : FeedState × RenderOut :=
  if st.feedItems.length = 0 then (st, RenderOut.emptyFeed MSG_FEED_EMPTY_DEFAULT)
  else
    let i1 : Int := if st.currentIndex < 0 then 0 else st.currentIndex
    let i2 : Int := if (st.feedItems.length : Int) ≤ i1
      then (st.feedItems.length : Int) - 1 else i1
    let st2 := { st with currentIndex := i2 }
    match st2.feedItems.get? i2.toNat with
    | some _ => (st2, RenderOut.card i2)
    | none => (st2, RenderOut.emptyFeed MSG_FEED_EMPTY_DEFAULT)

/-- `loadFeed` (app.js lines 399–493): guards, the `initial` reset, the
request at `offset = state.nextOffset`, and the three response paths. -/
def loadFeed (st : FeedState) (initial : Bool) (resp : FeedResp) :
    FeedState × RenderOut :=
  if tgIdTruthy st.tgId = false then (st, RenderOut.emptyFeed MSG_NO_TG)
  else if st.loadingFeed then (st, RenderOut.nothing)
  else if ¬ initial ∧ ¬ st.hasMore then (st, RenderOut.nothing)
  else
    let st1 := { st with loadingFeed := true }
    let st2 := if initial then
        { st1 with feedItems := [], currentIndex := 0, hasMore := true,
                   nextOffset := 0, seenIds := [] }
      else st1
    let offset := st2.nextOffset
    match resp with
    | FeedResp.httpError _ =>
      ({ st2 with loadingFeed := false }, RenderOut.emptyFeed MSG_FEED_HTTP_ERROR)
    | FeedResp.networkError =>
      ({ st2 with loadingFeed := false }, RenderOut.emptyFeed MSG_FEED_NETWORK_ERROR)
    | FeedResp.success data =>
      let items := data.items.getD []
      let dbg := data.debug.getD ⟨none, none, none⟩
      let appended := appendNewItems st2.feedItems st2.seenIds items
      let hasMore2 := match dbg.has_more with
        | some b => b
        | none => decide (FEED_LIMIT ≤ items.length)
      let nextOffset2 := match dbg.next_offset with
        | some m => m
        | none => offset + items.length
      let st3 := { st2 with feedItems := appended.1, seenIds := appended.2,
                            hasMore := hasMore2, nextOffset := nextOffset2 }
      if st3.feedItems.length = 0 then
        if dbg.reason = some "no_cards" then
          ({ st3 with loadingFeed := false }, RenderOut.emptyFeed MSG_FEED_NO_CARDS)
        else
          ({ st3 with loadingFeed := false }, RenderOut.emptyFeed MSG_FEED_EMPTY_DEFAULT)
      else
        let rendered := renderCurrentCard st3
        ({ rendered.1 with loadingFeed := false }, rendered.2)

theorem renderCurrentCard_fields (st : FeedState) :
    (renderCurrentCard st).1.hasMore = st.hasMore ∧
    (renderCurrentCard st).1.nextOffset = st.nextOffset ∧
    (renderCurrentCard st).1.feedItems = st.feedItems ∧
    (renderCurrentCard st).1.seenIds = st.seenIds ∧
    (renderCurrentCard st).1.loadingFeed = st.loadingFeed := by
  unfold renderCurrentCard
  by_cases h : st.feedItems.length = 0
  · rw [if_pos h]
    exact ⟨rfl, rfl, rfl, rfl, rfl⟩
  · rw [if_neg h]
    dsimp only
    split <;> exact ⟨rfl, rfl, rfl, rfl, rfl⟩

/-- The pagination fields written by a successful `loadFeed` (guards
passed): `hasMore` and `nextOffset` as functions of the response, plus the
reset of `loadingFeed`. -/
theorem loadFeed_success_fields (st : FeedState) (initial : Bool) (data : FeedData)
    (htg : tgIdTruthy st.tgId = true) (hload : st.loadingFeed = false)
    (hproceed : initial = true ∨ st.hasMore = true) :
    (loadFeed st initial (FeedResp.success data)).1.hasMore
      = (match (data.debug.getD ⟨none, none, none⟩).has_more with
         | some b => b
         | none => decide (FEED_LIMIT ≤ (data.items.getD []).length)) ∧
    (loadFeed st initial (FeedResp.success data)).1.nextOffset
      = (match (data.debug.getD ⟨none, none, none⟩).next_offset with
         | some m => m
         | none => (if initial then 0 else st.nextOffset)
             + (data.items.getD []).length) ∧
    (loadFeed st initial (FeedResp.success data)).1.loadingFeed = false := by
  cases initial with
  | true =>
    unfold loadFeed
    simp only [htg, hload, Bool.true_eq_false, Bool.false_eq_true, if_false, if_true,
      not_true_eq_false, false_and]
    refine ⟨?_, ?_, ?_⟩ <;>
      (split <;> (try split) <;>
        first
        | rfl
        | (dsimp only; exact (renderCurrentCard_fields _).1)
        | (dsimp only; exact (renderCurrentCard_fields _).2.1))
  | false =>
    have hmore : st.hasMore = true := by
      rcases hproceed with h | h
      · cases h
      · exact h
    unfold loadFeed
    simp only [htg, hload, hmore, Bool.true_eq_false, Bool.false_eq_true, if_false, if_true,
      not_true_eq_false, and_false]
    refine ⟨?_, ?_, ?_⟩ <;>
      (split <;> (try split) <;>
        first
        | rfl
        | (dsimp only; exact (renderCurrentCard_fields _).1)
        | (dsimp only; exact (renderCurrentCard_fields _).2.1))

/-- CLAIM C5: after every successful feed response (with the guards
passed), `hasMore` equals `debug.has_more` when that field is a boolean and
otherwise `items.length >= 20`; `nextOffset` equals `debug.next_offset`
when that field is a number and otherwise the request's offset (0 for an
initial load, `state.nextOffset` otherwise) plus `items.length`. -/
theorem loadFeed_pagination (st : FeedState) (initial : Bool) (data : FeedData)
    (htg : tgIdTruthy st.tgId = true) (hload : st.loadingFeed = false)
    (hproceed : initial = true ∨ st.hasMore = true) :
    (∀ b, (data.debug.getD ⟨none, none, none⟩).has_more = some b →
      (loadFeed st initial (FeedResp.success data)).1.hasMore = b) ∧
    ((data.debug.getD ⟨none, none, none⟩).has_more = none →
      (loadFeed st initial (FeedResp.success data)).1.hasMore
        = decide (FEED_LIMIT ≤ (data.items.getD []).length)) ∧
    (∀ m, (data.debug.getD ⟨none, none, none⟩).next_offset = some m →
      (loadFeed st initial (FeedResp.success data)).1.nextOffset = m) ∧
    ((data.debug.getD ⟨none, none, none⟩).next_offset = none →
      (loadFeed st initial (FeedResp.success data)).1.nextOffset
        = (if initial then 0 else st.nextOffset) + (data.items.getD []).length) := by
  obtain ⟨hmore, hoff, _⟩ := loadFeed_success_fields st initial data htg hload hproceed
  refine ⟨?_, ?_, ?_, ?_⟩
  · intro b hb
    rw [hmore, hb]
  · intro hb
    rw [hmore, hb]
  · intro m ho
    rw [hoff, ho]
  · intro ho
    rw [hoff, ho]

/-- Witness for C5: with a backend pointer `has_more = false`,
`next_offset = 40`, an initial load adopts both values. -/
theorem loadFeed_pagination_witness :
    (loadFeed ⟨some (JsPrim.num 1), [], 0, false, true, 0, []⟩ true
        (FeedResp.success ⟨some [⟨some (JsPrim.num 5), "a"⟩],
          some ⟨some false, some 40, none⟩⟩)).1.hasMore = false ∧
    (loadFeed ⟨some (JsPrim.num 1), [], 0, false, true, 0, []⟩ true
        (FeedResp.success ⟨some [⟨some (JsPrim.num 5), "a"⟩],
          some ⟨some false, some 40, none⟩⟩)).1.nextOffset = 40 := by
  have h := loadFeed_pagination ⟨some (JsPrim.num 1), [], 0, false, true, 0, []⟩ true
    ⟨some [⟨some (JsPrim.num 5), "a"⟩], some ⟨some false, some 40, none⟩⟩
    rfl rfl (Or.inl rfl)
  exact ⟨h.1 false rfl, h.2.2.1 40 rfl⟩

/-- CLAIM C6: on a failed feed fetch (non-ok HTTP status, or a network or
parse error reaching the `.catch`), `loadFeed` renders an error message
into the card container, performs no state mutation beyond the guard
bookkeeping — `feedItems`, `currentIndex` and `seenIds` are exactly as they
were when the request was issued (the original values for a non-initial
call; the values set by the `initial` reset, which happens before and
regardless of the fetch outcome, for an initial call) — and resets
`loadingFeed` to `false`, so a later `loadFeed` call is not blocked. -/
theorem loadFeed_failure_state (st : FeedState) (initial : Bool) (resp : FeedResp)
    (htg : tgIdTruthy st.tgId = true) (hload : st.loadingFeed = false)
    (hproceed : initial = true ∨ st.hasMore = true)
    (herr : ∀ data, resp ≠ FeedResp.success data) :
    (loadFeed st initial resp).1.loadingFeed = false ∧
    (loadFeed st initial resp).1.feedItems = (if initial then [] else st.feedItems) ∧
    (loadFeed st initial resp).1.currentIndex = (if initial then 0 else st.currentIndex) ∧
    (loadFeed st initial resp).1.seenIds = (if initial then [] else st.seenIds) ∧
    (loadFeed st initial resp).1.hasMore = (if initial then true else st.hasMore) ∧
    (loadFeed st initial resp).1.nextOffset = (if initial then 0 else st.nextOffset) ∧
    ((loadFeed st initial resp).2 = RenderOut.emptyFeed MSG_FEED_HTTP_ERROR ∨
     (loadFeed st initial resp).2 = RenderOut.emptyFeed MSG_FEED_NETWORK_ERROR) := by
  have hguard3 : ¬ (¬ initial = true ∧ ¬ st.hasMore = true) := by
    rcases hproceed with h | h <;> simp [h]
  unfold loadFeed
  simp only [htg, hload, Bool.true_eq_false, if_false, Bool.false_eq_true]
  rw [if_neg hguard3]
  cases resp with
  | httpError status =>
    cases initial <;>
      exact ⟨rfl, rfl, rfl, rfl, rfl, rfl, Or.inl rfl⟩
  | networkError =>
    cases initial <;>
      exact ⟨rfl, rfl, rfl, rfl, rfl, rfl, Or.inr rfl⟩
  | success data => exact absurd rfl (herr data)

/-- Witness for C6: a network error on a non-initial load with one card
already in the feed leaves the card and index in place, clears
`loadingFeed`, and shows the network-error message. -/
theorem loadFeed_failure_state_witness :
    (loadFeed ⟨some (JsPrim.num 1), [⟨some (JsPrim.num 5), "a"⟩], 0, false, true, 20,
        ["5"]⟩ false FeedResp.networkError).1.feedItems
      = [⟨some (JsPrim.num 5), "a"⟩] ∧
    (loadFeed ⟨some (JsPrim.num 1), [⟨some (JsPrim.num 5), "a"⟩], 0, false, true, 20,
        ["5"]⟩ false FeedResp.networkError).1.loadingFeed = false := by
  have h := loadFeed_failure_state
    ⟨some (JsPrim.num 1), [⟨some (JsPrim.num 5), "a"⟩], 0, false, true, 20, ["5"]⟩
    false FeedResp.networkError rfl rfl (Or.inr rfl)
    (by intro data h; cases h)
  exact ⟨h.2.1, h.1⟩

/-! ## The dwell-time engine (telemetry.js lines 244–354, 439–477)

Module-level state: `currentCardId`, `isVisible`, `lastVisStartPerf`,
`accumulatedVisibleMs`, `lastSentDwellMs`.  `performance.now()` values are
modelled as natural-number milliseconds supplied with each event;
`Math.round` on them is the identity.  The `view` events emitted by
`maybeSendView` go through `baseEvent`/`enqueue`, whose queue behaviour is
modelled above; here only the dwell bookkeeping (including
`lastSentDwellMs`) is tracked.  Heartbeats and `flushBeaconBestEffort`
calls do not touch these variables. -/

structure DwellSt where
  currentCardId : Option Int
  isVisible : Bool
  lastVisStartPerf : Option Nat
  accumulatedVisibleMs : Nat
  lastSentDwellMs : Int
  deriving Repr, DecidableEq

/-- The initial module state: no card, visibility taken from
`document.visibilityState` at load (telemetry.js line 253). -/
def initDwell (v0 : Bool) : DwellSt := ⟨none, v0, none, 0, 0⟩

/-- `clampInt` (telemetry.js lines 69–74); `Math.round(Number(v) || 0)` on
the already-integral values used here is the identity. -/
def clampInt (v lo hi : Int) : Int :=
  if v < lo then lo else if hi < v then hi else v

/-- `startVisibleWindow` (telemetry.js lines 264–269). -/
def startVisibleWindow (t : Nat) (s : DwellSt) : DwellSt :=
  if s.currentCardId = none then s
  else if s.isVisible = false then s
  else if s.lastVisStartPerf ≠ none then s
  else { s with lastVisStartPerf := some t }

/-- `stopVisibleWindow` (telemetry.js lines 271–277): with natural-number
subtraction, `delta <= 0` adds nothing, exactly as the `if (delta > 0)`
guard does. -/
def stopVisibleWindow (t : Nat) (s : DwellSt) : DwellSt :=
  if s.currentCardId = none then s
  else
    match s.lastVisStartPerf with
    | none => s
    | some v =>
      { s with
        accumulatedVisibleMs :=
          if 0 < t - v then s.accumulatedVisibleMs + (t - v)
          else s.accumulatedVisibleMs
        lastVisStartPerf := none }

/-- `getCurrentDwellMs` (telemetry.js lines 279–286). -/
def getCurrentDwellMs (t : Nat) (s : DwellSt) : Int :=
  if s.currentCardId = none then 0
  else
    let ms : Nat :=
      match s.lastVisStartPerf with
      | some v =>
        if s.isVisible then s.accumulatedVisibleMs + (t - v)
        else s.accumulatedVisibleMs
      | none => s.accumulatedVisibleMs
    clampInt (Int.ofNat ms) 0 MAX_DWELL_MS

/-- `maybeSendView` (telemetry.js lines 288–303), restricted to the dwell
state (the emitted `view` event goes through `enqueue`, modelled above). -/
def maybeSendView (t : Nat) (force : Bool) (s : DwellSt) : DwellSt :=
  if s.currentCardId = none then s
  else
    let dwell := getCurrentDwellMs t s
    if force = false ∧ dwell < s.lastSentDwellMs + VIEW_SEND_STEP_MS then s
    else { s with lastSentDwellMs := dwell }

/-- `finalizeCurrentCard` (telemetry.js lines 321–340); `flushNow` and
`stopHeartbeat` have no effect on this state. -/
def finalizeCurrentCard (t : Nat) (s : DwellSt) : DwellSt :=
  if s.currentCardId = none then s
  else
    let s1 := stopVisibleWindow t s
    let s2 := maybeSendView t true s1
    { s2 with currentCardId := none, accumulatedVisibleMs := 0,
              lastVisStartPerf := none, lastSentDwellMs := 0 }

/-- `Telemetry.onCardShown` (telemetry.js lines 439–477), for an already
normalized card id (`none` = non-finite, early return) and the current
`document.visibilityState`. -/
def onCardShown (cid : Option Int) (docVisible : Bool) (t : Nat) (s : DwellSt) :
    DwellSt :=
  match cid with
  | none => s
  | some c =>
    let s1 := if s.currentCardId ≠ none ∧ s.currentCardId ≠ some c
      then finalizeCurrentCard t s else s
    let s2 := { s1 with currentCardId := some c, accumulatedVisibleMs := 0,
                        lastSentDwellMs := 0, lastVisStartPerf := none }
    if docVisible then startVisibleWindow t { s2 with isVisible := true }
    else { s2 with isVisible := false }

/-- The `visibilitychange` listener (telemetry.js lines 342–354), with `b`
the new `document.visibilityState === "visible"`. -/
def onVisibilityChange (b : Bool) (t : Nat) (s : DwellSt) : DwellSt :=
  if b = s.isVisible then s
  else
    let s1 := { s with isVisible := b }
    if b then startVisibleWindow t s1
    else maybeSendView t true (stopVisibleWindow t s1)

/-- The events of the claim: a card being shown and a document visibility
change, each time-stamped with `performance.now()`. -/
inductive DwellEv where
  | shown (cid : Option Int) (t : Nat)
  | visibility (b : Bool) (t : Nat)
  deriving Repr, DecidableEq

def evTime : DwellEv → Nat
  | .shown _ t => t
  | .visibility _ t => t

/-- Document visibility (driving `document.visibilityState` reads in
`onCardShown`) together with the module state. -/
structure PageSt where
  docVisible : Bool
  dwell : DwellSt
  deriving Repr, DecidableEq

def pageStep (p : PageSt) : DwellEv → PageSt
  | .shown cid t => { p with dwell := onCardShown cid p.docVisible t p.dwell }
  | .visibility b t => { docVisible := b, dwell := onVisibilityChange b t p.dwell }

def runDwell (v0 : Bool) (trace : List DwellEv) : PageSt :=
  trace.foldl pageStep ⟨v0, initDwell v0⟩

/-- `performance.now()` is monotone: event times are nondecreasing along
the trace, starting at `lb`, and the query time `now` comes last. -/
def chronFrom (lb : Nat) : List DwellEv → Nat → Bool
  | [], now => decide (lb ≤ now)
  | e :: es, now => decide (lb ≤ evTime e) && chronFrom (evTime e) es now

/-! Specification-level accumulator, following the spec's words: the dwell
of the current card is the total time during which a card is current and
the document visible; it accumulates at every event boundary, stops while
hidden, resumes on becoming visible, and resets when a card is shown. -/

structure SpecSt where
  hasCard : Bool
  visible : Bool
  lastT : Nat
  acc : Nat
  deriving Repr, DecidableEq

def specStep (σ : SpecSt) : DwellEv → SpecSt
  | .shown none _ => σ
  | .shown (some _) t => { hasCard := true, visible := σ.visible, lastT := t, acc := 0 }
  | .visibility b t =>
    { hasCard := σ.hasCard, visible := b, lastT := t,
      acc := if σ.hasCard ∧ σ.visible then σ.acc + (t - σ.lastT) else σ.acc }

def specRun (v0 : Bool) (trace : List DwellEv) : SpecSt :=
  trace.foldl specStep ⟨false, v0, 0, 0⟩

/-- The accumulated visible milliseconds of the current card at time
`now`, per the spec's description of dwell time. -/
def specVisibleMs (v0 : Bool) (trace : List DwellEv) (now : Nat) : Nat :=
  let σ := specRun v0 trace
  if σ.hasCard ∧ σ.visible then σ.acc + (now - σ.lastT) else σ.acc

/-- The simulation relation between the module state and the specification
accumulator. -/
def DwellInv (p : PageSt) (σ : SpecSt) : Prop :=
  p.docVisible = σ.visible ∧
  p.dwell.isVisible = σ.visible ∧
  p.dwell.currentCardId.isSome = σ.hasCard ∧
  (σ.hasCard = false → p.dwell.lastVisStartPerf = none ∧
    p.dwell.accumulatedVisibleMs = 0 ∧ σ.acc = 0) ∧
  (σ.hasCard = true → σ.visible = true →
    ∃ v, p.dwell.lastVisStartPerf = some v ∧ v ≤ σ.lastT ∧
      σ.acc = p.dwell.accumulatedVisibleMs + (σ.lastT - v)) ∧
  (σ.hasCard = true → σ.visible = false →
    p.dwell.lastVisStartPerf = none ∧
    σ.acc = p.dwell.accumulatedVisibleMs)

theorem onCardShown_some (c : Int) (docV : Bool) (t : Nat) (s : DwellSt) :
    onCardShown (some c) docV t s
      = ⟨some c, docV, if docV then some t else none, 0, 0⟩ := by
  cases docV <;> rfl

theorem maybeSendView_fields (t : Nat) (force : Bool) (s : DwellSt) :
    (maybeSendView t force s).currentCardId = s.currentCardId ∧
    (maybeSendView t force s).isVisible = s.isVisible ∧
    (maybeSendView t force s).lastVisStartPerf = s.lastVisStartPerf ∧
    (maybeSendView t force s).accumulatedVisibleMs = s.accumulatedVisibleMs := by
  unfold maybeSendView
  split
  · exact ⟨rfl, rfl, rfl, rfl⟩
  · dsimp only
    split <;> exact ⟨rfl, rfl, rfl, rfl⟩

theorem clampInt_bounds (v lo hi : Int) (h : lo ≤ hi) :
    lo ≤ clampInt v lo hi ∧ clampInt v lo hi ≤ hi := by
  unfold clampInt
  split <;> [skip; split] <;> omega

theorem pageStep_inv {p : PageSt} {σ : SpecSt} (e : DwellEv)
    (h : DwellInv p σ) (ht : σ.lastT ≤ evTime e) :
    DwellInv (pageStep p e) (specStep σ e) ∧ (specStep σ e).lastT ≤ evTime e := by
  obtain ⟨hdoc, hvis, hcard, hno, hvisb, hhid⟩ := h
  cases e with
  | shown cid t =>
    cases cid with
    | none => exact ⟨⟨hdoc, hvis, hcard, hno, hvisb, hhid⟩, ht⟩
    | some c =>
      refine ⟨?_, le_refl t⟩
      have he : pageStep p (DwellEv.shown (some c) t)
          = ⟨p.docVisible,
             ⟨some c, p.docVisible, if p.docVisible then some t else none, 0, 0⟩⟩ := by
        show (⟨p.docVisible, onCardShown (some c) p.docVisible t p.dwell⟩ : PageSt) = _
        rw [onCardShown_some]
      rw [he]
      refine ⟨hdoc, hdoc, rfl, ?_, ?_, ?_⟩
      · intro hfc; cases hfc
      · intro _ hv
        refine ⟨t, ?_, le_refl t, by simp [specStep]⟩
        have hd : p.docVisible = true := hdoc.trans hv
        simp [hd]
      · intro _ hv
        have hd : p.docVisible = false := hdoc.trans hv
        exact ⟨by simp [hd], rfl⟩
  | visibility b t =>
    have ht2 : σ.lastT ≤ t := by simpa [evTime] using ht
    refine ⟨?_, le_refl t⟩
    by_cases hb : b = p.dwell.isVisible
    · have he : pageStep p (DwellEv.visibility b t) = ⟨b, p.dwell⟩ := by
        show (⟨b, onVisibilityChange b t p.dwell⟩ : PageSt) = _
        unfold onVisibilityChange
        rw [if_pos hb]
      rw [he]
      have hbv : b = σ.visible := hb.trans hvis
      refine ⟨rfl, hb.symm, hcard, ?_, ?_, ?_⟩
      · intro hfc
        have hfc2 : σ.hasCard = false := hfc
        obtain ⟨h1, h2, h3⟩ := hno hfc2
        refine ⟨h1, h2, ?_⟩
        simp [specStep, hfc2, h3]
      · intro hc hv
        have hc2 : σ.hasCard = true := hc
        have hσv : σ.visible = true := hbv.symm.trans hv
        obtain ⟨v, hlv, hvle, hacc⟩ := hvisb hc2 hσv
        refine ⟨v, hlv, ?_, ?_⟩
        · simp only [specStep]
          omega
        · simp [specStep, hc2, hσv]
          omega
      · intro hc hv
        have hc2 : σ.hasCard = true := hc
        have hσv : σ.visible = false := hbv.symm.trans hv
        obtain ⟨h1, h2⟩ := hhid hc2 hσv
        refine ⟨h1, ?_⟩
        simp [specStep, hσv, h2]
    · cases hbool : b with
      | true =>
        subst hbool
        have hsv : p.dwell.isVisible = false := by
          cases hv2 : p.dwell.isVisible
          · rfl
          · exact absurd hv2.symm hb
        have hσv : σ.visible = false := hvis.symm.trans hsv
        have he : pageStep p (DwellEv.visibility true t)
            = ⟨true, startVisibleWindow t { p.dwell with isVisible := true }⟩ := by
          show (⟨true, onVisibilityChange true t p.dwell⟩ : PageSt) = _
          unfold onVisibilityChange
          rw [if_neg hb]
          rfl
        rw [he]
        cases hcc : p.dwell.currentCardId with
        | none =>
          have hfc : σ.hasCard = false := by
            rw [← hcard, hcc]; rfl
          obtain ⟨h1, h2, h3⟩ := hno hfc
          have hstart : startVisibleWindow t { p.dwell with isVisible := true }
              = { p.dwell with isVisible := true } := by
            unfold startVisibleWindow
            simp [hcc]
          rw [hstart]
          refine ⟨rfl, rfl, ?_, ?_, ?_, ?_⟩
          · show (p.dwell.currentCardId).isSome = σ.hasCard
            rw [hcc, hfc]; rfl
          · intro _
            refine ⟨h1, h2, ?_⟩
            simp [specStep, hfc, h3]
          · intro hc2
            have hc3 : σ.hasCard = true := hc2
            rw [hfc] at hc3; cases hc3
          · intro _ hv
            have hv2 : (true : Bool) = false := hv
            cases hv2
        | some c =>
          have hc : σ.hasCard = true := by
            rw [← hcard, hcc]; rfl
          obtain ⟨h1, h2⟩ := hhid hc hσv
          have hstart : startVisibleWindow t { p.dwell with isVisible := true }
              = { p.dwell with isVisible := true, lastVisStartPerf := some t } := by
            unfold startVisibleWindow
            simp [hcc, h1]
          rw [hstart]
          refine ⟨rfl, rfl, ?_, ?_, ?_, ?_⟩
          · show (p.dwell.currentCardId).isSome = σ.hasCard
            rw [hcc, hc]; rfl
          · intro hfc
            have hfc2 : σ.hasCard = false := hfc
            rw [hfc2] at hc; cases hc
          · intro _ _
            refine ⟨t, rfl, le_refl t, ?_⟩
            simp [specStep, hσv, h2]
          · intro _ hv
            have hv2 : (true : Bool) = false := hv
            cases hv2
      | false =>
        subst hbool
        have hsv : p.dwell.isVisible = true := by
          cases hv2 : p.dwell.isVisible
          · exact absurd hv2.symm hb
          · rfl
        have hσv : σ.visible = true := hvis.symm.trans hsv
        have he : pageStep p (DwellEv.visibility false t)
            = ⟨false, maybeSendView t true
                (stopVisibleWindow t { p.dwell with isVisible := false })⟩ := by
          show (⟨false, onVisibilityChange false t p.dwell⟩ : PageSt) = _
          unfold onVisibilityChange
          rw [if_neg hb]
          rfl
        rw [he]
        cases hcc : p.dwell.currentCardId with
        | none =>
          have hfc : σ.hasCard = false := by
            rw [← hcard, hcc]; rfl
          obtain ⟨h1, h2, h3⟩ := hno hfc
          have hstop : stopVisibleWindow t { p.dwell with isVisible := false }
              = { p.dwell with isVisible := false } := by
            unfold stopVisibleWindow
            simp [hcc]
          have hmsv : maybeSendView t true { p.dwell with isVisible := false }
              = { p.dwell with isVisible := false } := by
            unfold maybeSendView
            simp [hcc]
          rw [hstop, hmsv]
          refine ⟨rfl, rfl, ?_, ?_, ?_, ?_⟩
          · show (p.dwell.currentCardId).isSome = σ.hasCard
            rw [hcc, hfc]; rfl
          · intro _
            refine ⟨h1, h2, ?_⟩
            simp [specStep, hfc, h3]
          · intro hc2
            have hc3 : σ.hasCard = true := hc2
            rw [hfc] at hc3; cases hc3
          · intro hc2
            have hc3 : σ.hasCard = true := hc2
            rw [hfc] at hc3; cases hc3
        | some c =>
          have hc : σ.hasCard = true := by
            rw [← hcard, hcc]; rfl
          obtain ⟨v, hlv, hvle, hacc⟩ := hvisb hc hσv
          have hstop : stopVisibleWindow t { p.dwell with isVisible := false }
              = ⟨p.dwell.currentCardId, false, none,
                 if 0 < t - v then p.dwell.accumulatedVisibleMs + (t - v)
                 else p.dwell.accumulatedVisibleMs,
                 p.dwell.lastSentDwellMs⟩ := by
            unfold stopVisibleWindow
            simp [hcc, hlv]
          rw [hstop]
          obtain ⟨hf1, hf2, hf3, hf4⟩ := maybeSendView_fields t true
            ⟨p.dwell.currentCardId, false, none,
             if 0 < t - v then p.dwell.accumulatedVisibleMs + (t - v)
             else p.dwell.accumulatedVisibleMs,
             p.dwell.lastSentDwellMs⟩
          refine ⟨rfl, ?_, ?_, ?_, ?_, ?_⟩
          · exact hf2
          · rw [hf1]
            show (p.dwell.currentCardId).isSome = σ.hasCard
            rw [hcc, hc]; rfl
          · intro hfc
            have hfc2 : σ.hasCard = false := hfc
            rw [hfc2] at hc; cases hc
          · intro _ hv
            have hv2 : (false : Bool) = true := hv
            cases hv2
          · intro _ _
            refine ⟨hf3, ?_⟩
            rw [hf4]
            simp only [specStep, hc, hσv]
            simp only [and_self, if_true]
            split <;> omega

theorem chronFrom_mono {lb lb2 : Nat} (h : lb2 ≤ lb) :
    ∀ {es : List DwellEv} {now : Nat},
      chronFrom lb es now = true → chronFrom lb2 es now = true := by
  intro es now hc
  cases es with
  | nil =>
    simp only [chronFrom, decide_eq_true_eq] at hc ⊢
    omega
  | cons e es2 =>
    simp only [chronFrom, Bool.and_eq_true, decide_eq_true_eq] at hc ⊢
    exact ⟨by omega, hc.2⟩

theorem foldl_dwell_inv :
    ∀ (trace : List DwellEv) (p : PageSt) (σ : SpecSt) (now : Nat),
      DwellInv p σ → chronFrom σ.lastT trace now = true →
      DwellInv (trace.foldl pageStep p) (trace.foldl specStep σ) ∧
      (trace.foldl specStep σ).lastT ≤ now := by
  intro trace
  induction trace with
  | nil =>
    intro p σ now hinv hc
    simp only [chronFrom, decide_eq_true_eq] at hc
    exact ⟨hinv, hc⟩
  | cons e es ih =>
    intro p σ now hinv hc
    simp only [chronFrom, Bool.and_eq_true, decide_eq_true_eq] at hc
    obtain ⟨h1, h2⟩ := hc
    obtain ⟨hinv2, hlt⟩ := pageStep_inv e hinv h1
    exact ih (pageStep p e) (specStep σ e) now hinv2 (chronFrom_mono hlt h2)

theorem getCurrentDwellMs_of_inv {p : PageSt} {σ : SpecSt} (now : Nat)
    (h : DwellInv p σ) (hn : σ.lastT ≤ now) :
    getCurrentDwellMs now p.dwell
      = clampInt
          (Int.ofNat (if σ.hasCard ∧ σ.visible then σ.acc + (now - σ.lastT) else σ.acc))
          0 MAX_DWELL_MS := by
  obtain ⟨hdoc, hvis, hcard, hno, hvisb, hhid⟩ := h
  cases hcc : p.dwell.currentCardId with
  | none =>
    have hfc : σ.hasCard = false := by rw [← hcard, hcc]; rfl
    obtain ⟨h1, h2, h3⟩ := hno hfc
    unfold getCurrentDwellMs
    simp only [hcc, if_pos rfl, hfc, Bool.false_eq_true, false_and, if_false, h3]
    unfold clampInt MAX_DWELL_MS
    norm_num
  | some c =>
    have hc : σ.hasCard = true := by rw [← hcard, hcc]; rfl
    cases hsv : σ.visible with
    | true =>
      obtain ⟨v, hlv, hvle, hacc⟩ := hvisb hc hsv
      have hvv : p.dwell.isVisible = true := hvis.trans hsv
      unfold getCurrentDwellMs
      simp only [hcc, hlv, hvv, hc, hsv, and_self, if_true]
      have harith : p.dwell.accumulatedVisibleMs + (now - v)
          = σ.acc + (now - σ.lastT) := by omega
      simp only [reduceCtorEq, if_false, if_true, harith]
    | false =>
      obtain ⟨h1, h2⟩ := hhid hc hsv
      have hvv : p.dwell.isVisible = false := hvis.trans hsv
      unfold getCurrentDwellMs
      simp only [hcc, h1, hvv, hc, hsv, and_false, if_false, h2, reduceCtorEq]

/-- CLAIM C1: the dwell time of the current card counts only time while
the document is visible: after any sequence of card-shown /
visibility-change events (with monotone `performance.now()` timestamps),
`getCurrentDwellMs` returns exactly the clamp into `[0, MAX_DWELL_MS]` of
the accumulated visible milliseconds of the current card — accumulation
stops on hidden and resumes on visible, per `specVisibleMs` — and the
returned value always lies in `[0, 120000]` (it is an `Int` by
construction). -/
theorem getCurrentDwellMs_visible_clamped (v0 : Bool) (trace : List DwellEv)
    (now : Nat) :
    (0 ≤ getCurrentDwellMs now (runDwell v0 trace).dwell ∧
      getCurrentDwellMs now (runDwell v0 trace).dwell ≤ MAX_DWELL_MS) ∧
    (chronFrom 0 trace now = true →
      getCurrentDwellMs now (runDwell v0 trace).dwell
        = clampInt (Int.ofNat (specVisibleMs v0 trace now)) 0 MAX_DWELL_MS) := by
  constructor
  · unfold getCurrentDwellMs
    split
    · refine ⟨le_refl 0, ?_⟩
      unfold MAX_DWELL_MS
      norm_num
    · exact clampInt_bounds _ 0 MAX_DWELL_MS (by unfold MAX_DWELL_MS; norm_num)
  · intro hchron
    have hinv0 : DwellInv ⟨v0, initDwell v0⟩ ⟨false, v0, 0, 0⟩ := by
      refine ⟨rfl, rfl, rfl, fun _ => ⟨rfl, rfl, rfl⟩, ?_, ?_⟩
      · intro hc; cases hc
      · intro hc; cases hc
    obtain ⟨hinv, hlast⟩ :=
      foldl_dwell_inv trace ⟨v0, initDwell v0⟩ ⟨false, v0, 0, 0⟩ now hinv0 hchron
    exact getCurrentDwellMs_of_inv now hinv hlast

/-- Witness for C1: a card shown at `t = 0` while visible, hidden from
100ms to 250ms, queried at 300ms, dwells exactly 150 visible ms. -/
theorem getCurrentDwellMs_visible_clamped_witness :
    getCurrentDwellMs 300 (runDwell true [DwellEv.shown (some 1) 0,
        DwellEv.visibility false 100, DwellEv.visibility true 250]).dwell = 150 := by
  have h := (getCurrentDwellMs_visible_clamped true [DwellEv.shown (some 1) 0,
      DwellEv.visibility false 100, DwellEv.visibility true 250] 300).2 (by decide)
  rw [h]
  decide

end Eyye
